import Mathlib

/-!
Verification development for the clipvive job-intake and storage-accounting
service.  The definitions below are a shallow embedding of the Python source:

* `Clipvive.Status`, `Clipvive.Job` embed the `Job` rows of
  `backend/app/models.py` (status strings become an inductive type).
* `Clipvive._inc_user_storage` / `Clipvive._dec_user_storage` embed the SQL
  update expressions of `backend.bak.1763490862/app/tasks.py` (lines 46-54):
  `storage_used_bytes = COALESCE(b,0) + d` and
  `storage_used_bytes = GREATEST(COALESCE(b,0) - d, 0)`.
* `Clipvive.Worker.cleanup_local_storage` embeds the owner-aware sweeper of
  `backend.bak.1763490862/app/tasks.py` (lines 112-144).
* `Clipvive.Worker.process_task` embeds lines 56-109 of the same file.
* `Clipvive.Backend.cleanup_local_storage` embeds the file-enumerating
  sweeper of `backend/app/tasks.py` (lines 108-158).
* `Clipvive.Backend.save_job_payload` and the trace models embed the
  write-then-rename payload store of `backend/app/tasks.py` (lines 65-106).
* `Clipvive.Api.enqueue_denied` / `Clipvive.Api.quotas` embed the quota guard
  of `backend.bak.1763490862/app/main.py` (lines 93-108).

Times are modelled as integer seconds (Python timestamps), byte counts as
naturals, and the database value `storage_used_bytes` as an integer (the SQL
column is a signed BIGINT).
-/

namespace Clipvive

/-- Job lifecycle status; the Python code stores the strings
"created" / "processing" / "done" / "failed" / "deleted". -/
inductive Status where
  | created
  | processing
  | done
  | failed
  | deleted
deriving DecidableEq, Repr

/-- Position of a status in the forward chain
created/processing (0) to done/failed (1) to deleted (2). -/
def Status.rank : Status → Nat
  | Status.created => 0
  | Status.processing => 0
  | Status.done => 1
  | Status.failed => 1
  | Status.deleted => 2

/-- The per-owner usage ledger: association list from user id to
`storage_used_bytes` (first binding wins, as a keyed table). -/
abbrev Ledger := List (Nat × Int)

/-- First-match association lookup on the ledger (the SQL row for `id = uid`). -/
def lookupKey : Ledger → Nat → Option Int
  | [], _ => none
  | (a, b) :: t, k => if a = k then some b else lookupKey t k

/-- The `storage_used_bytes` read back for an owner; a missing row reads as 0
(`COALESCE(storage_used_bytes, 0)`). -/
def getBalance (l : Ledger) (o : Nat) : Int :=
  (lookupKey l o).getD 0

/-- Embeds `_inc_user_storage` (backend.bak tasks.py line 46-49):
`UPDATE user SET storage_used_bytes = COALESCE(storage_used_bytes,0) + d
WHERE id = uid`.  Rows with other ids are untouched; a missing row stays
missing (SQL UPDATE matches nothing). -/
def _inc_user_storage : Ledger → Nat → Nat → Ledger
  | [], _, _ => []
  | (a, b) :: t, uid, d =>
      (a, if a = uid then b + (d : Int) else b) :: _inc_user_storage t uid d

/-- Embeds `_dec_user_storage` (backend.bak tasks.py line 51-54):
`UPDATE user SET storage_used_bytes =
GREATEST(COALESCE(storage_used_bytes,0) - d, 0) WHERE id = uid`. -/
def _dec_user_storage : Ledger → Nat → Nat → Ledger
  | [], _, _ => []
  | (a, b) :: t, uid, d =>
      (a, if a = uid then max (b - (d : Int)) 0 else b) :: _dec_user_storage t uid d

/-- One usage-ledger operation, as issued by the intake path
(`_inc_user_storage`) and the sweeper (`_dec_user_storage`). -/
inductive LedgerOp where
  | inc (uid : Nat) (d : Nat)
  | dec (uid : Nat) (d : Nat)
deriving DecidableEq, Repr

/-- Apply one ledger operation. -/
def applyOp (l : Ledger) : LedgerOp → Ledger
  | LedgerOp.inc uid d => _inc_user_storage l uid d
  | LedgerOp.dec uid d => _dec_user_storage l uid d

/-- Apply a finite sequence of ledger operations in order. -/
def applyOps (l : Ledger) (ops : List LedgerOp) : Ledger :=
  ops.foldl applyOp l

/-- Every owner's stored byte counter is non-negative. -/
def LedgerNonNeg (l : Ledger) : Prop :=
  ∀ p ∈ l, 0 ≤ p.2

/-- Metadata of one stored file: last-modified time (seconds) and size in
bytes, as read by `os.path.getmtime` / `os.path.getsize`. -/
structure FileInfo where
  mtime : Int
  size : Nat
deriving DecidableEq, Repr

/-- The flat file store under the storage root: association list from
filename to file metadata. -/
abbrev FileStore := List (String × FileInfo)

/-- `os.path.isfile` + `getmtime`/`getsize`: first-match lookup by name. -/
def lookupName : FileStore → String → Option FileInfo
  | [], _ => none
  | (a, fi) :: t, fn => if a = fn then some fi else lookupName t fn

/-- `os.remove(fn)`: drop every entry stored under that name. -/
def removeFile : FileStore → String → FileStore
  | [], _ => []
  | (a, fi) :: t, fn =>
      if a = fn then removeFile t fn else (a, fi) :: removeFile t fn

/-- Drop every entry whose name occurs in `ns` (iterated `os.remove`). -/
def removeNames : FileStore → List String → FileStore
  | [], _ => []
  | (a, fi) :: t, ns =>
      if a ∈ ns then removeNames t ns else (a, fi) :: removeNames t ns

/-- A `Job` row of `backend/app/models.py`: primary key `job_id`, optional
`owner_id` (anonymous jobs permitted), optional `filename`, `size_bytes`
(default 0), lifecycle `status`, `created_at`, optional `processed_at`. -/
structure Job where
  job_id : String
  owner_id : Option Nat
  filename : Option String
  size_bytes : Nat
  status : Status
  created_at : Int
  processed_at : Option Int
deriving DecidableEq, Repr

namespace Worker

/-- The state the worker variant (backend.bak.1763490862) acts on: the jobs
table, the physical file store, and the per-user usage ledger. -/
structure WorkerState where
  jobs : List Job
  files : FileStore
  ledger : Ledger
deriving DecidableEq, Repr

/-- The candidate file of a job: its `filename`, if set and if a file of
that name physically exists (`job.filename` + `os.path.isfile`). -/
def fileOf (files : FileStore) (j : Job) : Option (String × FileInfo) :=
  match j.filename with
  | none => none
  | some fn =>
    match lookupName files fn with
    | none => none
    | some fi => some (fn, fi)

/-- Whether one pass of `cleanup_local_storage` (backend.bak tasks.py lines
119-139) deletes this job's file: status is `done`, the file exists, and
its mtime is strictly before the cutoff. -/
def willDelete (cutoff : Int) (files : FileStore) (j : Job) : Bool :=
  match j.status, fileOf files j with
  | Status.done, some (_, fi) => decide (fi.mtime < cutoff)
  | _, _ => false

/-- The job record after the sweep pass looked at it: marked `deleted`
exactly when its file was deleted (`job.status = "deleted"`). -/
def markJob (cutoff : Int) (files : FileStore) (j : Job) : Job :=
  if willDelete cutoff files j then
    ⟨j.job_id, j.owner_id, j.filename, j.size_bytes, Status.deleted,
      j.created_at, j.processed_at⟩
  else j

/-- `_dec_user_storage` guarded by `if job.owner_id:` (line 134-135);
`owner_id` of 0 is falsy in Python and also skips the decrement. -/
def decOwner (l : Ledger) (owner : Option Nat) (d : Nat) : Ledger :=
  match owner with
  | some o => if o = 0 then l else _dec_user_storage l o d
  | none => l

/-- Loop state of the sweep: current file store, ledger, jobs already
processed, and the `deleted` counter. -/
structure SweepAcc where
  files : FileStore
  ledger : Ledger
  jobs : List Job
  deleted : Nat
deriving DecidableEq, Repr

/-- One iteration of the `for job in jobs:` loop of backend.bak tasks.py
lines 122-141: skip unless the job has status done (the query filter), a
set filename and an existing file older than the cutoff; otherwise capture
the size, remove the file, bump the counter, decrement the owner's ledger
and mark the job deleted. -/
def sweepStep (cutoff : Int) (acc : SweepAcc) (j : Job) : SweepAcc :=
  match fileOf acc.files j with
  | some (fn, fi) =>
    if j.status = Status.done ∧ fi.mtime < cutoff then
      ⟨removeFile acc.files fn,
       decOwner acc.ledger j.owner_id fi.size,
       acc.jobs ++ [markJob cutoff acc.files j],
       acc.deleted + 1⟩
    else ⟨acc.files, acc.ledger, acc.jobs ++ [j], acc.deleted⟩
  | none => ⟨acc.files, acc.ledger, acc.jobs ++ [j], acc.deleted⟩

/-- The owner-aware sweep `cleanup_local_storage` of backend.bak tasks.py
lines 112-144 (happy path: directory present, no per-job exception): cutoff
is `utcnow - RETENTION_DAYS * 86400` seconds; every job is examined in
order and the number of deleted files is returned. -/
def cleanup_local_storage (now R : Int) (st : WorkerState) :
    WorkerState × Nat :=
  let cutoff := now - R * 86400
  let acc := st.jobs.foldl (sweepStep cutoff) ⟨st.files, st.ledger, [], 0⟩
  (⟨acc.jobs, acc.files, acc.ledger⟩, acc.deleted)

/-- Filenames of the jobs the sweep deletes, measured against the initial
file store. -/
def delNames (cutoff : Int) (files0 : FileStore) (jobs : List Job) :
    List String :=
  (jobs.filter (fun j => willDelete cutoff files0 j)).filterMap
    (fun j => j.filename)

/-- The (owner, size) decrements the sweep issues, sizes captured from the
initial file store (before deletion). -/
def delDecs (cutoff : Int) (files0 : FileStore) (jobs : List Job) :
    List (Option Nat × Nat) :=
  (jobs.filter (fun j => willDelete cutoff files0 j)).filterMap
    (fun j =>
      match fileOf files0 j with
      | some (_, fi) => some (j.owner_id, fi.size)
      | none => none)

/-- Apply a list of guarded owner decrements in order. -/
def applyDecs (l : Ledger) (ds : List (Option Nat × Nat)) : Ledger :=
  ds.foldl (fun l p => decOwner l p.1 p.2) l

/-- Total bytes decremented for owner `o` by a decrement list. -/
def sumFor (o : Nat) (ds : List (Option Nat × Nat)) : Nat :=
  ((ds.filter (fun p => decide (p.1 = some o) && decide (o ≠ 0))).map
    (fun p => p.2)).sum

end Worker

/-- Result dictionary of one sweep invocation, with the optional keys the
two variants actually emit: `deleted`, `error`, `reason`. -/
structure SweepResult where
  deleted : Option Nat
  error : Option String
  reason : Option String
deriving DecidableEq, Repr

namespace Worker

/-- Python truthiness of `owner_id` in `if owner_id:`: `None` and `0` are
falsy. -/
def truthy : Option Nat → Bool
  | none => false
  | some k => decide (k ≠ 0)

/-- The full content `process_task` writes to the job's file
(backend.bak tasks.py lines 70-73): a job_id header line, a timestamp
header line, a blank line, then the payload text and a newline. -/
def fullContent (textz job_id ts : String) : String :=
  "job_id: " ++ job_id ++ "\n" ++ "timestamp: " ++ ts ++ "\n\n"
    ++ textz ++ "\n"

/-- Writing a file: the new content replaces any file of the same name. -/
def setFile (fs : FileStore) (fn : String) (fi : FileInfo) : FileStore :=
  (fn, fi) :: removeFile fs fn

/-- `process_task` of backend.bak tasks.py lines 56-109 (DB reachable, no
S3 configured so the local copy is never removed): create the job record
as processing, write the file; only when `owner_id` is truthy, increment
the owner's storage and update the job to done with its size and
processed_at; a falsy owner leaves the job at processing with
size_bytes 0 and no processed_at. -/
def process_task (textz job_id : String) (owner_id : Option Nat)
    (now : Int) (ts : String) (st : WorkerState) : WorkerState :=
  let filename := job_id ++ ".txt"
  let size := (fullContent textz job_id ts).utf8ByteSize
  let files1 := setFile st.files filename ⟨now, size⟩
  match owner_id with
  | some o =>
    if o = 0 then
      ⟨st.jobs ++ [⟨job_id, owner_id, some filename, 0, Status.processing,
          now, none⟩], files1, st.ledger⟩
    else
      ⟨st.jobs ++ [⟨job_id, owner_id, some filename, size, Status.done,
          now, some now⟩], files1, _inc_user_storage st.ledger o size⟩
  | none =>
    ⟨st.jobs ++ [⟨job_id, owner_id, some filename, 0, Status.processing,
        now, none⟩], files1, st.ledger⟩

/-- Contents observable at the job's final path while `process_task`
writes it: `open(filename, "w")` truncates in place, then the three
`f.write` calls append; a concurrent reader of the path can see the empty
file or any of the partial stages. -/
def process_task_states (textz job_id ts : String) :
    List (Option String) :=
  [none,
   some "",
   some ("job_id: " ++ job_id ++ "\n"),
   some ("job_id: " ++ job_id ++ "\n" ++ "timestamp: " ++ ts ++ "\n\n"),
   some (fullContent textz job_id ts)]

/-- The dict `cleanup_local_storage` of backend.bak returns, around the
happy-path sweep: an internal exception yields only an `error` key (line
143-144); a missing storage directory yields deleted 0 with a reason (line
115-116); otherwise the count of deleted files. -/
def cleanup_result (now R : Int) (dirExists : Bool)
    (failure : Option String) (st : WorkerState) :
    SweepResult × WorkerState :=
  match failure with
  | some e => (⟨none, some e, none⟩, st)
  | none =>
    if dirExists then
      let r := cleanup_local_storage now R st
      (⟨some r.2, none, none⟩, r.1)
    else (⟨some 0, none, some "no_dir"⟩, st)

end Worker

namespace Backend

/-- Per-entry behaviour of the filesystem during the sweep: `ok` (stat and
unlink succeed), `gone` (the file vanished concurrently, raising
FileNotFoundError), `denied` (PermissionError). -/
inductive Fault where
  | ok
  | gone
  | denied
deriving DecidableEq, Repr

/-- One directory entry seen by `Path(STORAGE_PATH).iterdir()`: its name,
whether it is a regular file, its mtime, and its fault behaviour. -/
structure Entry where
  name : String
  isFile : Bool
  mtime : Int
  fault : Fault
deriving DecidableEq, Repr

/-- The state the current backend variant acts on: the storage directory
listing, the jobs table, and whether the storage root is readable. -/
structure BackendState where
  dir : List Entry
  jobs : List Job
  rootReadable : Bool
deriving DecidableEq, Repr

/-- Whether the sweep of backend/app/tasks.py lines 122-134 unlinks this
entry: it is a regular file, neither vanished nor permission-blocked, and
`mtime < cutoff`. -/
def deletesEntry (cutoff : Int) (e : Entry) : Bool :=
  e.isFile && (e.fault == Fault.ok) && decide (e.mtime < cutoff)

/-- A file that vanished concurrently is absent afterwards even though the
sweep skipped it (FileNotFoundError caught, `continue`). -/
def vanishes (e : Entry) : Bool :=
  e.isFile && (e.fault == Fault.gone)

/-- Entries still present after the deletion loop. -/
def survives (cutoff : Int) (e : Entry) : Bool :=
  !(deletesEntry cutoff e) && !(vanishes e)

/-- The best-effort DB reflection of backend/app/tasks.py lines 139-156:
any job whose filename is set but whose file no longer exists is marked
deleted (regardless of its previous status). -/
def markMissing (dir2 : List Entry) (j : Job) : Job :=
  match j.filename with
  | some fn =>
    if dir2.any (fun e => e.name == fn) then j
    else ⟨j.job_id, j.owner_id, j.filename, j.size_bytes, Status.deleted,
        j.created_at, j.processed_at⟩
  | none => j

/-- The file-enumerating sweep `cleanup_local_storage` of
backend/app/tasks.py lines 108-158.  The `RETENTION_DAYS <= 0` guard at
line 113-116 is a bare `pass` and changes nothing.  If the storage root is
unreadable the outer except returns `deleted 0` at once (line 135-137),
without touching jobs.  Otherwise every regular file with `mtime < cutoff`
whose stat/unlink does not raise is unlinked and counted
(FileNotFoundError and PermissionError per entry are skipped), and then
jobs pointing at missing files are marked deleted. -/
def cleanup_local_storage (now R : Int) (st : BackendState) :
    SweepResult × BackendState :=
  if st.rootReadable then
    let cutoff := now - R * 86400
    let dir2 := st.dir.filter (survives cutoff)
    (⟨some ((st.dir.filter (deletesEntry cutoff)).length), none, none⟩,
     ⟨dir2, st.jobs.map (markMissing dir2), true⟩)
  else (⟨some 0, none, none⟩, st)

/-- Failure injected into `save_job_payload`: none, `open` fails
(permission denied), `write` fails after `written` bytes (disk full), or
the final rename fails. -/
inductive WriteFault where
  | noFault
  | openFail
  | writeFail (written : Nat)
  | renameFail
deriving DecidableEq, Repr

/-- The storage-write failure surfaced to the intake caller (the
OSError/PermissionError that open/write/replace raise, which
`api_enqueue` maps to a 500). -/
structure StorageWriteError where
  msg : String
deriving DecidableEq, Repr

/-- The dict `save_job_payload` returns on success. -/
structure SaveRes where
  job_id : String
  filename : String
  size_bytes : Nat
deriving DecidableEq, Repr

/-- Contents of the temp path and of the final path after the operation. -/
structure DiskView where
  tmp : Option String
  final : Option String
deriving DecidableEq, Repr

/-- `save_job_payload` of backend/app/tasks.py lines 65-106 (write path
only; the DB attribution is best-effort and swallowed).  The payload is
written to `<uuid>.tmp` and then atomically renamed to `<uuid>.txt`
(`tmp_path.replace(filepath)`); the returned size is the on-disk size.  On
failure the exception propagates, the final path is never promoted, and
only a failed `write`/rename leaves the temp file behind. -/
def save_job_payload (payload job_uuid : String) (fault : WriteFault) :
    Except StorageWriteError SaveRes × DiskView :=
  match fault with
  | WriteFault.noFault =>
    (Except.ok ⟨job_uuid, job_uuid ++ ".txt", payload.utf8ByteSize⟩,
     ⟨none, some payload⟩)
  | WriteFault.openFail =>
    (Except.error ⟨"open failed"⟩, ⟨none, none⟩)
  | WriteFault.writeFail k =>
    (Except.error ⟨"write failed"⟩, ⟨some (payload.take k), none⟩)
  | WriteFault.renameFail =>
    (Except.error ⟨"rename failed"⟩, ⟨some payload, none⟩)

/-- (temp path, final path) contents observable while `save_job_payload`
runs without failure: the temp file passes through every partial stage,
the final path stays absent until the atomic rename installs the complete
payload. -/
def save_job_payload_states (payload : String) :
    List (Option String × Option String) :=
  ((List.range (payload.length + 1)).map
    (fun k => (some (payload.take k), (none : Option String))))
    ++ [(none, some payload)]

end Backend

/-- A reader at the target location never observes a partially-written
payload: every observable state is absent or the complete content. -/
def atomic_visible (states : List (Option String)) (full : String) :
    Prop :=
  ∀ s ∈ states, s = none ∨ s = some full

/-- Same property over (tmp, final) pairs, about the final location. -/
def atomic_final_visible (states : List (Option String × Option String))
    (full : String) : Prop :=
  ∀ s ∈ states, s.2 = none ∨ s.2 = some full

namespace Api

/-- The plan-to-quota mapping of backend.bak main.py lines 97-102 (env
defaults): `quotas.get(plan, quotas["free"])` falls back to the free tier
for unrecognized plans. -/
def quotas (plan : String) : Nat :=
  if plan = "free" then 524288000
  else if plan = "basic" then 5368709120
  else if plan = "pro" then 21474836480
  else 524288000

/-- `estimated_size = max(len(text.encode()) + 1024, 1024)` (line 95). -/
def estimated_size (textByteLen : Nat) : Nat :=
  max (textByteLen + 1024) 1024

/-- The admission test of line 103: deny (403) iff
`(user.storage_used_bytes or 0) + estimated_size > quota`. -/
def enqueue_denied (used : Int) (est quota : Nat) : Bool :=
  decide (used + (est : Int) > (quota : Int))

/-- A user row as the quota guard reads it. -/
structure ApiUser where
  id : Nat
  plan : String
  storage_used_bytes : Int
deriving DecidableEq, Repr

/-- Whether `POST /api/enqueue` rejects the request with 403
(backend.bak main.py lines 93-104). -/
def enqueue (u : ApiUser) (textByteLen : Nat) : Bool :=
  enqueue_denied u.storage_used_bytes (estimated_size textByteLen)
    (quotas u.plan)

/-- The status write of `DELETE /api/files/job_id` (backend.bak main.py
line 77): unconditionally `job.status = "deleted"`. -/
def delete_file_mark (j : Job) : Job :=
  ⟨j.job_id, j.owner_id, j.filename, j.size_bytes, Status.deleted,
    j.created_at, j.processed_at⟩

end Api

theorem lookupKey_mem {l : Ledger} {o : Nat} {b : Int}
    (h : lookupKey l o = some b) : (o, b) ∈ l := by
  induction l with
  | nil => simp [lookupKey] at h
  | cons hd t ih =>
    obtain ⟨a, v⟩ := hd
    rw [lookupKey] at h
    by_cases he : a = o
    · simp [he] at h
      subst he
      subst h
      exact List.mem_cons_self _ _
    · simp [he] at h
      exact List.mem_cons_of_mem _ (ih h)

theorem getBalance_nonneg {l : Ledger} (hl : LedgerNonNeg l) (o : Nat) :
    0 ≤ getBalance l o := by
  unfold getBalance
  cases h : lookupKey l o with
  | none => simp
  | some b => simpa using hl _ (lookupKey_mem h)

theorem lookupKey_dec_self (l : Ledger) (u : Nat) (d : Nat) :
    lookupKey (_dec_user_storage l u d) u
      = (lookupKey l u).map (fun b => max (b - (d : Int)) 0) := by
  induction l with
  | nil => rfl
  | cons hd t ih =>
    obtain ⟨a, v⟩ := hd
    by_cases he : a = u
    · simp [_dec_user_storage, lookupKey, he]
    · simp only [_dec_user_storage, lookupKey, he, ite_false]
      exact ih

theorem lookupKey_dec_other (l : Ledger) (u o : Nat) (d : Nat) (h : o ≠ u) :
    lookupKey (_dec_user_storage l u d) o = lookupKey l o := by
  induction l with
  | nil => rfl
  | cons hd t ih =>
    obtain ⟨a, v⟩ := hd
    by_cases ho : a = o
    · simp [_dec_user_storage, lookupKey, ho, h]
    · simp only [_dec_user_storage, lookupKey, ho, ite_false]
      exact ih

theorem getBalance_dec_self (l : Ledger) (u : Nat) (d : Nat) :
    getBalance (_dec_user_storage l u d) u
      = max (getBalance l u - (d : Int)) 0 := by
  unfold getBalance
  rw [lookupKey_dec_self]
  cases h : lookupKey l u with
  | none =>
    simp only [Option.map_none', Option.getD_none, zero_sub]
    rw [eq_comm, max_eq_right]
    omega
  | some b => simp

theorem getBalance_dec_other (l : Ledger) (u o : Nat) (d : Nat) (h : o ≠ u) :
    getBalance (_dec_user_storage l u d) o = getBalance l o := by
  unfold getBalance
  rw [lookupKey_dec_other l u o d h]

theorem _inc_nonneg {l : Ledger} (hl : LedgerNonNeg l) (uid d : Nat) :
    LedgerNonNeg (_inc_user_storage l uid d) := by
  induction l with
  | nil => exact hl
  | cons hd t ih =>
    obtain ⟨a, v⟩ := hd
    have hv : 0 ≤ v := hl (a, v) (List.mem_cons_self _ _)
    have ht : LedgerNonNeg t := fun p hp => hl p (List.mem_cons_of_mem _ hp)
    intro p hp
    rw [_inc_user_storage] at hp
    rcases List.mem_cons.mp hp with hph | hpt
    · subst hph
      by_cases he : a = uid
      · simp only [he, if_true]
        positivity
      · simpa [he] using hv
    · exact ih ht p hpt

theorem _dec_nonneg {l : Ledger} (hl : LedgerNonNeg l) (uid d : Nat) :
    LedgerNonNeg (_dec_user_storage l uid d) := by
  induction l with
  | nil => exact hl
  | cons hd t ih =>
    obtain ⟨a, v⟩ := hd
    have hv : 0 ≤ v := hl (a, v) (List.mem_cons_self _ _)
    have ht : LedgerNonNeg t := fun p hp => hl p (List.mem_cons_of_mem _ hp)
    intro p hp
    rw [_dec_user_storage] at hp
    rcases List.mem_cons.mp hp with hph | hpt
    · subst hph
      by_cases he : a = uid
      · simp [he]
      · simpa [he] using hv
    · exact ih ht p hpt

theorem applyOp_nonneg {l : Ledger} (hl : LedgerNonNeg l) (op : LedgerOp) :
    LedgerNonNeg (applyOp l op) := by
  cases op with
  | inc uid d => exact _inc_nonneg hl uid d
  | dec uid d => exact _dec_nonneg hl uid d

theorem applyOps_nonneg {l : Ledger} (hl : LedgerNonNeg l)
    (ops : List LedgerOp) : LedgerNonNeg (applyOps l ops) := by
  induction ops generalizing l with
  | nil => exact hl
  | cons op t ih => exact ih (applyOp_nonneg hl op)

end Clipvive

/-- Claim C2: for every owner and every finite sequence of usage-ledger
increment and decrement operations, `storage_used_bytes` stays a
non-negative integer after each operation (each single operation preserves
non-negativity, hence so does any sequence), and a decrement whose delta
exceeds the current balance clamps the counter at exactly zero. -/
theorem ledger_nonneg_and_clamped (l : Clipvive.Ledger)
    (ops : List Clipvive.LedgerOp) (op : Clipvive.LedgerOp)
    (uid d : Nat) (hl : Clipvive.LedgerNonNeg l) :
    Clipvive.LedgerNonNeg (Clipvive.applyOp l op)
    ∧ Clipvive.LedgerNonNeg (Clipvive.applyOps l ops)
    ∧ (Clipvive.getBalance l uid < (d : Int) →
        Clipvive.getBalance (Clipvive._dec_user_storage l uid d) uid = 0) := by
  refine ⟨Clipvive.applyOp_nonneg hl op, Clipvive.applyOps_nonneg hl ops, ?_⟩
  intro hlt
  rw [Clipvive.getBalance_dec_self]
  omega

/-- Concrete instantiation of claim C2's theorem: owner 1 with 10 bytes,
the sequence inc 5 then dec 100 (over-decrement), checked at owner 1. -/
theorem ledger_nonneg_and_clamped_witness :
    Clipvive.LedgerNonNeg [(1, (10 : Int))]
    ∧ (Clipvive.LedgerNonNeg
        (Clipvive.applyOp [(1, (10 : Int))] (Clipvive.LedgerOp.dec 1 100))
      ∧ Clipvive.LedgerNonNeg
        (Clipvive.applyOps [(1, (10 : Int))]
          [Clipvive.LedgerOp.inc 1 5, Clipvive.LedgerOp.dec 1 100])
      ∧ (Clipvive.getBalance [(1, (10 : Int))] 1 < (100 : Int) →
          Clipvive.getBalance
            (Clipvive._dec_user_storage [(1, (10 : Int))] 1 100) 1 = 0)) :=
  ⟨by unfold Clipvive.LedgerNonNeg; decide,
   ledger_nonneg_and_clamped [(1, (10 : Int))]
     [Clipvive.LedgerOp.inc 1 5, Clipvive.LedgerOp.dec 1 100]
     (Clipvive.LedgerOp.dec 1 100) 1 100
     (by unfold Clipvive.LedgerNonNeg; decide)⟩

namespace Clipvive

theorem lookupName_removeFile_other (fs : FileStore) (fn fn2 : String)
    (h : fn2 ≠ fn) :
    lookupName (removeFile fs fn) fn2 = lookupName fs fn2 := by
  induction fs with
  | nil => rfl
  | cons hd t ih =>
    obtain ⟨a, fi⟩ := hd
    by_cases hafn : a = fn
    · have ha2 : ¬ a = fn2 := by
        rw [hafn]
        exact fun hc => h hc.symm
      rw [removeFile, if_pos hafn, lookupName, if_neg ha2]
      exact ih
    · rw [removeFile, if_neg hafn, lookupName, lookupName]
      by_cases ha2 : a = fn2
      · rw [if_pos ha2, if_pos ha2]
      · rw [if_neg ha2, if_neg ha2]
        exact ih

theorem removeNames_nil (fs : FileStore) : removeNames fs [] = fs := by
  induction fs with
  | nil => rfl
  | cons hd t ih =>
    obtain ⟨a, fi⟩ := hd
    rw [removeNames, if_neg (List.not_mem_nil a), ih]

theorem removeNames_cons (fs : FileStore) (n : String) (ns : List String) :
    removeNames fs (n :: ns) = removeNames (removeFile fs n) ns := by
  induction fs with
  | nil => rfl
  | cons hd t ih =>
    obtain ⟨a, fi⟩ := hd
    by_cases han : a = n
    · rw [removeNames, if_pos (by rw [han]; exact List.mem_cons_self n ns),
        removeFile, if_pos han]
      exact ih
    · rw [removeFile, if_neg han, removeNames, removeNames]
      by_cases hin : a ∈ ns
      · rw [if_pos (List.mem_cons_of_mem n hin), if_pos hin]
        exact ih
      · have : a ∉ n :: ns := by
          intro hc
          rcases List.mem_cons.mp hc with hc1 | hc2
          · exact han hc1
          · exact hin hc2
        rw [if_neg this, if_neg hin, ih]

theorem lookupName_removeNames_mem (fs : FileStore) (ns : List String)
    (fn : String) (h : fn ∈ ns) :
    lookupName (removeNames fs ns) fn = none := by
  induction fs with
  | nil => rfl
  | cons hd t ih =>
    obtain ⟨a, fi⟩ := hd
    by_cases hin : a ∈ ns
    · rw [removeNames, if_pos hin]
      exact ih
    · have ha : ¬ a = fn := fun hc => hin (hc ▸ h)
      rw [removeNames, if_neg hin, lookupName, if_neg ha]
      exact ih

theorem lookupName_removeNames_not_mem (fs : FileStore) (ns : List String)
    (fn : String) (h : fn ∉ ns) :
    lookupName (removeNames fs ns) fn = lookupName fs fn := by
  induction fs with
  | nil => rfl
  | cons hd t ih =>
    obtain ⟨a, fi⟩ := hd
    by_cases hin : a ∈ ns
    · have ha : ¬ a = fn := fun hc => h (hc ▸ hin)
      rw [removeNames, if_pos hin, lookupName, if_neg ha]
      exact ih
    · rw [removeNames, if_neg hin, lookupName, lookupName]
      by_cases ha2 : a = fn
      · rw [if_pos ha2, if_pos ha2]
      · rw [if_neg ha2, if_neg ha2]
        exact ih

namespace Worker

/-- Agreement of two stores on a job's filename. -/
def agreesOn (files files0 : FileStore) (j : Job) : Prop :=
  ∀ fn, j.filename = some fn → lookupName files fn = lookupName files0 fn

theorem fileOf_congr {files files0 : FileStore} {j : Job}
    (h : agreesOn files files0 j) : fileOf files j = fileOf files0 j := by
  cases hf : j.filename with
  | none => simp [fileOf, hf]
  | some fn => simp [fileOf, hf, h fn hf]

theorem willDelete_congr {files files0 : FileStore} {j : Job}
    (h : agreesOn files files0 j) (cutoff : Int) :
    willDelete cutoff files j = willDelete cutoff files0 j := by
  unfold willDelete
  rw [fileOf_congr h]

theorem markJob_congr {files files0 : FileStore} {j : Job}
    (h : agreesOn files files0 j) (cutoff : Int) :
    markJob cutoff files j = markJob cutoff files0 j := by
  unfold markJob
  rw [willDelete_congr h]

end Worker

end Clipvive

namespace Clipvive

namespace Worker

theorem fileOf_eq_some {files : FileStore} {j : Job} {fn : String}
    {fi : FileInfo} (h : fileOf files j = some (fn, fi)) :
    j.filename = some fn ∧ lookupName files fn = some fi := by
  cases hf : j.filename with
  | none => simp [fileOf, hf] at h
  | some fn2 =>
    cases hl : lookupName files fn2 with
    | none => simp [fileOf, hf, hl] at h
    | some fi2 =>
      simp [fileOf, hf, hl] at h
      obtain ⟨h1, h2⟩ := h
      subst h1
      subst h2
      exact ⟨rfl, hl⟩

theorem willDelete_none {cutoff : Int} {files : FileStore} {j : Job}
    (h : fileOf files j = none) : willDelete cutoff files j = false := by
  unfold willDelete
  rw [h]
  cases j.status <;> rfl

theorem willDelete_some {cutoff : Int} {files : FileStore} {j : Job}
    {fn : String} {fi : FileInfo} (h : fileOf files j = some (fn, fi)) :
    willDelete cutoff files j
      = (decide (j.status = Status.done) && decide (fi.mtime < cutoff)) := by
  unfold willDelete
  rw [h]
  cases j.status <;> simp

theorem markJob_not_del {cutoff : Int} {files : FileStore} {j : Job}
    (h : willDelete cutoff files j = false) : markJob cutoff files j = j := by
  unfold markJob
  rw [h]
  rfl

theorem delNames_cons_false {cutoff : Int} {files0 : FileStore} {j : Job}
    (rest : List Job) (h : willDelete cutoff files0 j = false) :
    delNames cutoff files0 (j :: rest) = delNames cutoff files0 rest := by
  unfold delNames
  rw [List.filter_cons_of_neg (by simp [h])]

theorem delNames_cons_true {cutoff : Int} {files0 : FileStore} {j : Job}
    {fn : String} (rest : List Job)
    (h : willDelete cutoff files0 j = true) (hfn : j.filename = some fn) :
    delNames cutoff files0 (j :: rest) = fn :: delNames cutoff files0 rest := by
  unfold delNames
  rw [List.filter_cons_of_pos (by simp [h]), List.filterMap_cons, hfn]

theorem delDecs_cons_false {cutoff : Int} {files0 : FileStore} {j : Job}
    (rest : List Job) (h : willDelete cutoff files0 j = false) :
    delDecs cutoff files0 (j :: rest) = delDecs cutoff files0 rest := by
  unfold delDecs
  rw [List.filter_cons_of_neg (by simp [h])]

theorem delDecs_cons_true {cutoff : Int} {files0 : FileStore} {j : Job}
    {fn : String} {fi : FileInfo} (rest : List Job)
    (h : willDelete cutoff files0 j = true)
    (hfo : fileOf files0 j = some (fn, fi)) :
    delDecs cutoff files0 (j :: rest)
      = (j.owner_id, fi.size) :: delDecs cutoff files0 rest := by
  unfold delDecs
  rw [List.filter_cons_of_pos (by simp [h]), List.filterMap_cons, hfo]

theorem sweep_fold (cutoff : Int) (files0 : FileStore) :
    ∀ (jobs : List Job) (acc : SweepAcc),
      (∀ j ∈ jobs, agreesOn acc.files files0 j) →
      (jobs.filterMap (fun j => j.filename)).Nodup →
      jobs.foldl (sweepStep cutoff) acc =
        ⟨removeNames acc.files (delNames cutoff files0 jobs),
         applyDecs acc.ledger (delDecs cutoff files0 jobs),
         acc.jobs ++ jobs.map (markJob cutoff files0),
         acc.deleted
           + (jobs.filter (fun j => willDelete cutoff files0 j)).length⟩ := by
  intro jobs
  induction jobs with
  | nil =>
    intro acc _ _
    simp [delNames, delDecs, applyDecs, removeNames_nil]
  | cons j rest ih =>
    intro acc hagree hnodup
    have hj : agreesOn acc.files files0 j :=
      hagree j (List.mem_cons_self _ _)
    have hrest : ∀ j2 ∈ rest, agreesOn acc.files files0 j2 :=
      fun j2 h2 => hagree j2 (List.mem_cons_of_mem _ h2)
    rw [List.foldl_cons]
    cases hfo : fileOf acc.files j with
    | none =>
      have hfo0 : fileOf files0 j = none := by
        rw [← fileOf_congr hj]
        exact hfo
      have hw0 : willDelete cutoff files0 j = false := willDelete_none hfo0
      have hstep : sweepStep cutoff acc j
          = ⟨acc.files, acc.ledger, acc.jobs ++ [j], acc.deleted⟩ := by
        unfold sweepStep
        rw [hfo]
      rw [hstep]
      have hnodup2 : (rest.filterMap (fun j2 => j2.filename)).Nodup := by
        rw [List.filterMap_cons] at hnodup
        cases hfn : j.filename with
        | none => rw [hfn] at hnodup; exact hnodup
        | some fn =>
          rw [hfn] at hnodup
          exact (List.nodup_cons.mp hnodup).2
      rw [ih ⟨acc.files, acc.ledger, acc.jobs ++ [j], acc.deleted⟩
        hrest hnodup2]
      rw [delNames_cons_false rest hw0, delDecs_cons_false rest hw0,
        List.map_cons, markJob_not_del hw0,
        List.filter_cons_of_neg (by simp [hw0]),
        List.append_assoc, List.singleton_append]
    | some p =>
      obtain ⟨fn, fi⟩ := p
      have hfo0 : fileOf files0 j = some (fn, fi) := by
        rw [← fileOf_congr hj]
        exact hfo
      obtain ⟨hfn, _hlk⟩ := fileOf_eq_some hfo
      by_cases hcond : j.status = Status.done ∧ fi.mtime < cutoff
      · have hw0 : willDelete cutoff files0 j = true := by
          rw [willDelete_some hfo0]
          simp [hcond.1, hcond.2]
        have hwA : willDelete cutoff acc.files j = true := by
          rw [willDelete_congr hj]
          exact hw0
        have hstep : sweepStep cutoff acc j
            = ⟨removeFile acc.files fn,
               decOwner acc.ledger j.owner_id fi.size,
               acc.jobs ++ [markJob cutoff acc.files j],
               acc.deleted + 1⟩ := by
          unfold sweepStep
          rw [hfo]
          exact if_pos hcond
        rw [hstep]
        have hfn_not_rest : fn ∉ rest.filterMap (fun j2 => j2.filename) := by
          rw [List.filterMap_cons, hfn] at hnodup
          exact (List.nodup_cons.mp hnodup).1
        have hnodup2 : (rest.filterMap (fun j2 => j2.filename)).Nodup := by
          rw [List.filterMap_cons, hfn] at hnodup
          exact (List.nodup_cons.mp hnodup).2
        have hrest2 : ∀ j2 ∈ rest, agreesOn (removeFile acc.files fn) files0 j2 := by
          intro j2 h2 fn2 hfn2
          have hne : fn2 ≠ fn := by
            intro hc
            subst hc
            exact hfn_not_rest (List.mem_filterMap.mpr ⟨j2, h2, hfn2⟩)
          rw [lookupName_removeFile_other acc.files fn fn2 hne]
          exact hrest j2 h2 fn2 hfn2
        rw [ih ⟨removeFile acc.files fn,
              decOwner acc.ledger j.owner_id fi.size,
              acc.jobs ++ [markJob cutoff acc.files j],
              acc.deleted + 1⟩ hrest2 hnodup2]
        rw [delNames_cons_true rest hw0 hfn, removeNames_cons,
          delDecs_cons_true rest hw0 hfo0,
          List.map_cons, markJob_congr hj,
          List.filter_cons_of_pos (by simp [hw0]),
          List.append_assoc, List.singleton_append]
        have hlen : acc.deleted + 1
              + (rest.filter (fun j2 => willDelete cutoff files0 j2)).length
            = acc.deleted
              + (j :: rest.filter (fun j2 => willDelete cutoff files0 j2)).length := by
          rw [List.length_cons]
          omega
        rw [hlen]
        rfl
      · have hw0 : willDelete cutoff files0 j = false := by
          rw [willDelete_some hfo0]
          rcases Decidable.not_and_iff_or_not.mp hcond with hc | hc <;> simp [hc]
        have hstep : sweepStep cutoff acc j
            = ⟨acc.files, acc.ledger, acc.jobs ++ [j], acc.deleted⟩ := by
          unfold sweepStep
          rw [hfo]
          exact if_neg hcond
        rw [hstep]
        have hnodup2 : (rest.filterMap (fun j2 => j2.filename)).Nodup := by
          rw [List.filterMap_cons, hfn] at hnodup
          exact (List.nodup_cons.mp hnodup).2
        rw [ih ⟨acc.files, acc.ledger, acc.jobs ++ [j], acc.deleted⟩
          hrest hnodup2]
        rw [delNames_cons_false rest hw0, delDecs_cons_false rest hw0,
          List.map_cons, markJob_not_del hw0,
          List.filter_cons_of_neg (by simp [hw0]),
          List.append_assoc, List.singleton_append]

end Worker

end Clipvive

namespace Clipvive

namespace Worker

theorem willDelete_true {cutoff : Int} {files : FileStore} {j : Job}
    (h : willDelete cutoff files j = true) :
    j.status = Status.done
      ∧ ∃ fn fi, j.filename = some fn ∧ lookupName files fn = some fi
          ∧ fi.mtime < cutoff := by
  cases hfo : fileOf files j with
  | none => rw [willDelete_none hfo] at h; exact absurd h (by simp)
  | some p =>
    obtain ⟨fn, fi⟩ := p
    rw [willDelete_some hfo] at h
    simp at h
    obtain ⟨hfn, hlk⟩ := fileOf_eq_some hfo
    exact ⟨h.1, fn, fi, hfn, hlk, h.2⟩

theorem fileOf_of {files : FileStore} {j : Job} {fn : String} {fi : FileInfo}
    (hfn : j.filename = some fn) (hlk : lookupName files fn = some fi) :
    fileOf files j = some (fn, fi) := by
  simp [fileOf, hfn, hlk]

theorem cleanup_local_storage_spec (now R : Int) (st : WorkerState)
    (hnodup : (st.jobs.filterMap (fun j => j.filename)).Nodup) :
    cleanup_local_storage now R st =
      (⟨st.jobs.map (markJob (now - R * 86400) st.files),
        removeNames st.files (delNames (now - R * 86400) st.files st.jobs),
        applyDecs st.ledger (delDecs (now - R * 86400) st.files st.jobs)⟩,
       (st.jobs.filter
          (fun j => willDelete (now - R * 86400) st.files j)).length) := by
  have hfold := sweep_fold (now - R * 86400) st.files st.jobs
    ⟨st.files, st.ledger, [], 0⟩ (fun j _ fn _ => rfl) hnodup
  unfold cleanup_local_storage
  simp only [hfold]
  simp

theorem getBalance_decOwner (l : Ledger) (ow : Option Nat) (d : Nat)
    (o : Nat) :
    getBalance (decOwner l ow d) o =
      if ow = some o ∧ o ≠ 0 then max (getBalance l o - (d : Int)) 0
      else getBalance l o := by
  cases ow with
  | none => rw [if_neg (by simp)]; rfl
  | some u =>
    by_cases hu : u = 0
    · subst hu
      have hcond : ¬ (some 0 = some o ∧ o ≠ 0) := by
        intro hc
        exact hc.2 (by injection hc.1 with h2; exact h2.symm)
      rw [if_neg hcond]
      rfl
    · by_cases huo : u = o
      · subst huo
        rw [if_pos ⟨rfl, hu⟩]
        show getBalance (if u = 0 then l else _dec_user_storage l u d) u
            = max (getBalance l u - (d : Int)) 0
        rw [if_neg hu]
        exact getBalance_dec_self l u d
      · have hcond : ¬ (some u = some o ∧ o ≠ 0) := by
          intro hc
          exact huo (Option.some.inj hc.1)
        rw [if_neg hcond]
        show getBalance (if u = 0 then l else _dec_user_storage l u d) o
            = getBalance l o
        rw [if_neg hu]
        exact getBalance_dec_other l u o d (fun hc => huo hc.symm)

theorem int_clamp_clamp (x s : Int) (hs : 0 ≤ s) :
    max (max x 0 - s) 0 = max (x - s) 0 := by
  rcases le_total x 0 with h | h
  · rw [max_eq_right h, max_eq_right (by omega : (0 : Int) - s ≤ 0),
      max_eq_right (by omega : x - s ≤ 0)]
  · rw [max_eq_left h]

theorem sumFor_cons_true {o : Nat} {ow : Option Nat} {d : Nat}
    (rest : List (Option Nat × Nat)) (h : ow = some o ∧ o ≠ 0) :
    sumFor o ((ow, d) :: rest) = d + sumFor o rest := by
  unfold sumFor
  rw [List.filter_cons_of_pos (by simp [h.1, h.2]), List.map_cons,
    List.sum_cons]

theorem sumFor_cons_false {o : Nat} {ow : Option Nat} {d : Nat}
    (rest : List (Option Nat × Nat)) (h : ¬ (ow = some o ∧ o ≠ 0)) :
    sumFor o ((ow, d) :: rest) = sumFor o rest := by
  unfold sumFor
  rw [List.filter_cons_of_neg (by
    intro hc
    simp only [Bool.and_eq_true, decide_eq_true_eq] at hc
    exact h hc)]

theorem getBalance_applyDecs (ds : List (Option Nat × Nat)) (l : Ledger)
    (o : Nat) (h : 0 ≤ getBalance l o) :
    getBalance (applyDecs l ds) o
      = max (getBalance l o - (sumFor o ds : Int)) 0 := by
  induction ds generalizing l with
  | nil =>
    have h0 : sumFor o [] = 0 := rfl
    rw [h0]
    show getBalance l o = max (getBalance l o - ((0 : Nat) : Int)) 0
    rw [Nat.cast_zero, sub_zero, max_eq_left h]
  | cons p rest ih =>
    obtain ⟨ow, d⟩ := p
    have hstep : applyDecs l ((ow, d) :: rest)
        = applyDecs (decOwner l ow d) rest := rfl
    rw [hstep]
    by_cases hcase : ow = some o ∧ o ≠ 0
    · have hb2 : getBalance (decOwner l ow d) o
          = max (getBalance l o - (d : Int)) 0 := by
        rw [getBalance_decOwner, if_pos hcase]
      rw [ih (decOwner l ow d) (by rw [hb2]; exact le_max_right _ _)]
      rw [hb2, int_clamp_clamp _ _ (by positivity),
        sumFor_cons_true rest hcase]
      congr 1
      push_cast
      ring
    · have hb2 : getBalance (decOwner l ow d) o = getBalance l o := by
        rw [getBalance_decOwner, if_neg hcase]
      rw [ih (decOwner l ow d) (by rw [hb2]; exact h)]
      rw [hb2, sumFor_cons_false rest hcase]

end Worker

end Clipvive

namespace Clipvive

/-- Sample worker state for the retention test of spec section 8: at
`now = 864000` (day 10), job a.txt is 1 day old (size 10, owner 1) and
job b.txt is 10 days old (size 20, owner 2); retention is 7 days. -/
def c1State : Worker.WorkerState :=
  ⟨[⟨"a", some 1, some "a.txt", 10, Status.done, 777600, some 777600⟩,
    ⟨"b", some 2, some "b.txt", 20, Status.done, 0, some 0⟩],
   [("a.txt", ⟨777600, 10⟩), ("b.txt", ⟨0, 20⟩)],
   [(1, 10), (2, 20)]⟩

end Clipvive

/-- Claim C1, amended: the worker-variant sweep deletes a stored file only
when it is the candidate file of a status-done job and its age STRICTLY
exceeds the retention threshold (the code tests `mtime < cutoff`, so a file
whose age equals the threshold exactly is kept, and files not referenced by
a done job are never candidates).  For every sweep over a state with
pairwise-distinct job filenames and a non-negative ledger: the returned
count is the number of candidates deleted; the jobs table is rewritten by
marking exactly the deleted candidates as deleted; the file store loses
exactly the deleted candidates; every owner's balance is decremented by the
total pre-deletion size of their deleted files, clamped at zero; each done
job whose existing file is strictly older than the threshold loses its file
and is marked deleted with its job id preserved; and every file not
strictly older than the threshold survives with unchanged metadata, its
ledger contribution untouched. -/
theorem sweeper_deletes_exactly_strictly_aged (now R : Int)
    (st : Clipvive.Worker.WorkerState)
    (hnodup : (st.jobs.filterMap (fun j => j.filename)).Nodup)
    (hnn : Clipvive.LedgerNonNeg st.ledger) :
    (Clipvive.Worker.cleanup_local_storage now R st).2
      = (st.jobs.filter
          (fun j => Clipvive.Worker.willDelete (now - R * 86400) st.files j)).length
    ∧ (Clipvive.Worker.cleanup_local_storage now R st).1.jobs
      = st.jobs.map (Clipvive.Worker.markJob (now - R * 86400) st.files)
    ∧ (Clipvive.Worker.cleanup_local_storage now R st).1.files
      = Clipvive.removeNames st.files
          (Clipvive.Worker.delNames (now - R * 86400) st.files st.jobs)
    ∧ (∀ o, Clipvive.getBalance
          (Clipvive.Worker.cleanup_local_storage now R st).1.ledger o
        = max (Clipvive.getBalance st.ledger o
            - (Clipvive.Worker.sumFor o
                (Clipvive.Worker.delDecs (now - R * 86400) st.files st.jobs)
              : Int)) 0)
    ∧ (∀ j ∈ st.jobs, ∀ fn fi, j.status = Clipvive.Status.done →
        j.filename = some fn →
        Clipvive.lookupName st.files fn = some fi →
        now - fi.mtime > R * 86400 →
        Clipvive.lookupName
            (Clipvive.Worker.cleanup_local_storage now R st).1.files fn = none
          ∧ Clipvive.Worker.markJob (now - R * 86400) st.files j
              ∈ (Clipvive.Worker.cleanup_local_storage now R st).1.jobs
          ∧ (Clipvive.Worker.markJob (now - R * 86400) st.files j).status
              = Clipvive.Status.deleted
          ∧ (Clipvive.Worker.markJob (now - R * 86400) st.files j).job_id
              = j.job_id)
    ∧ (∀ fn fi, Clipvive.lookupName st.files fn = some fi →
        ¬ (now - fi.mtime > R * 86400) →
        Clipvive.lookupName
          (Clipvive.Worker.cleanup_local_storage now R st).1.files fn
            = some fi) := by
  have hspec := Clipvive.Worker.cleanup_local_storage_spec now R st hnodup
  refine ⟨by rw [hspec], by rw [hspec], by rw [hspec], ?_, ?_, ?_⟩
  · intro o
    rw [hspec]
    exact Clipvive.Worker.getBalance_applyDecs _ _ _
      (Clipvive.getBalance_nonneg hnn o)
  · intro j hj fn fi hst hfn hlk hage
    have hmt : fi.mtime < now - R * 86400 := by omega
    have hw : Clipvive.Worker.willDelete (now - R * 86400) st.files j
        = true := by
      rw [Clipvive.Worker.willDelete_some
        (Clipvive.Worker.fileOf_of hfn hlk)]
      simp [hst, hmt]
    have hmem : fn
        ∈ Clipvive.Worker.delNames (now - R * 86400) st.files st.jobs :=
      List.mem_filterMap.mpr ⟨j, List.mem_filter.mpr ⟨hj, hw⟩, hfn⟩
    refine ⟨?_, ?_, ?_, ?_⟩
    · rw [hspec]
      exact Clipvive.lookupName_removeNames_mem st.files _ fn hmem
    · rw [hspec]
      exact List.mem_map_of_mem _ hj
    · simp [Clipvive.Worker.markJob, hw]
    · simp [Clipvive.Worker.markJob, hw]
  · intro fn fi hlk hage
    have hnotmem : fn
        ∉ Clipvive.Worker.delNames (now - R * 86400) st.files st.jobs := by
      intro hmem
      obtain ⟨j2, hj2mem, hj2fn⟩ := List.mem_filterMap.mp hmem
      have hj2 := List.mem_filter.mp hj2mem
      obtain ⟨hst2, fn2, fi2, hfn2, hlk2, hmt2⟩ :=
        Clipvive.Worker.willDelete_true hj2.2
      rw [hj2fn] at hfn2
      have hfneq : fn2 = fn := (Option.some.inj hfn2).symm
      subst hfneq
      rw [hlk] at hlk2
      have hfieq : fi2 = fi := (Option.some.inj hlk2).symm
      subst hfieq
      omega
    rw [hspec]
    exact (Clipvive.lookupName_removeNames_not_mem st.files _ fn
      hnotmem).trans hlk

/-- Concrete instantiation of claim C1's theorem on the spec section 8
retention scenario: files 1 day and 10 days old, retention 7 days. -/
theorem sweeper_deletes_exactly_strictly_aged_witness :
    (((Clipvive.c1State.jobs.filterMap (fun j => j.filename)).Nodup
       ∧ Clipvive.LedgerNonNeg Clipvive.c1State.ledger)
      ∧ ((Clipvive.Worker.cleanup_local_storage 864000 7 Clipvive.c1State).2
          = (Clipvive.c1State.jobs.filter
              (fun j => Clipvive.Worker.willDelete (864000 - 7 * 86400)
                Clipvive.c1State.files j)).length
        ∧ (Clipvive.Worker.cleanup_local_storage 864000 7 Clipvive.c1State).1.jobs
          = Clipvive.c1State.jobs.map
              (Clipvive.Worker.markJob (864000 - 7 * 86400) Clipvive.c1State.files)
        ∧ (Clipvive.Worker.cleanup_local_storage 864000 7 Clipvive.c1State).1.files
          = Clipvive.removeNames Clipvive.c1State.files
              (Clipvive.Worker.delNames (864000 - 7 * 86400)
                Clipvive.c1State.files Clipvive.c1State.jobs)
        ∧ (∀ o, Clipvive.getBalance
              (Clipvive.Worker.cleanup_local_storage 864000 7
                Clipvive.c1State).1.ledger o
            = max (Clipvive.getBalance Clipvive.c1State.ledger o
                - (Clipvive.Worker.sumFor o
                    (Clipvive.Worker.delDecs (864000 - 7 * 86400)
                      Clipvive.c1State.files Clipvive.c1State.jobs) : Int)) 0)
        ∧ (∀ j ∈ Clipvive.c1State.jobs, ∀ fn fi,
            j.status = Clipvive.Status.done →
            j.filename = some fn →
            Clipvive.lookupName Clipvive.c1State.files fn = some fi →
            864000 - fi.mtime > 7 * 86400 →
            Clipvive.lookupName
                (Clipvive.Worker.cleanup_local_storage 864000 7
                  Clipvive.c1State).1.files fn = none
              ∧ Clipvive.Worker.markJob (864000 - 7 * 86400)
                  Clipvive.c1State.files j
                  ∈ (Clipvive.Worker.cleanup_local_storage 864000 7
                      Clipvive.c1State).1.jobs
              ∧ (Clipvive.Worker.markJob (864000 - 7 * 86400)
                  Clipvive.c1State.files j).status = Clipvive.Status.deleted
              ∧ (Clipvive.Worker.markJob (864000 - 7 * 86400)
                  Clipvive.c1State.files j).job_id = j.job_id)
        ∧ (∀ fn fi,
            Clipvive.lookupName Clipvive.c1State.files fn = some fi →
            ¬ (864000 - fi.mtime > 7 * 86400) →
            Clipvive.lookupName
              (Clipvive.Worker.cleanup_local_storage 864000 7
                Clipvive.c1State).1.files fn = some fi))) :=
  ⟨⟨by decide, by unfold Clipvive.LedgerNonNeg; decide⟩,
   sweeper_deletes_exactly_strictly_aged 864000 7 Clipvive.c1State
     (by decide) (by unfold Clipvive.LedgerNonNeg; decide)⟩

/-- Counterexample to claim C1 as stated: a done job whose file's age
EQUALS the retention threshold exactly (mtime 0, now = 604800 = 7 days,
retention 7 days).  The claim says a file of age at least the threshold is
deleted; the code keeps it (it tests `mtime < cutoff` strictly), returning
0 deletions and leaving file, job and ledger untouched. -/
theorem sweeper_age_equal_threshold_kept :
    Clipvive.Worker.cleanup_local_storage 604800 7
      ⟨[⟨"j1", some 5, some "f.txt", 100, Clipvive.Status.done, 0, some 0⟩],
       [("f.txt", ⟨0, 100⟩)], [(5, 100)]⟩
      = (⟨[⟨"j1", some 5, some "f.txt", 100, Clipvive.Status.done, 0, some 0⟩],
          [("f.txt", ⟨0, 100⟩)], [(5, 100)]⟩, 0) := by
  decide

/-- Claim C3: the Quota Guard denies an intake request iff the owner's
current `storage_used_bytes` plus the incoming size estimate strictly
exceeds the plan-derived quota; the quota comes from the fixed
plan-to-bytes mapping with fallback to the free tier for unrecognized
plans; and on the spec's example (quota 1000, usage 900) an estimate of
150 is denied, 50 is allowed, and after committing 50 through the usage
ledger a subsequent estimate of 60 is denied. -/
theorem quota_guard_admission :
    (∀ (used : Int) (est quota : Nat),
        Clipvive.Api.enqueue_denied used est quota = true
          ↔ used + (est : Int) > (quota : Int))
    ∧ (∀ (u : Clipvive.Api.ApiUser) (n : Nat),
        Clipvive.Api.enqueue u n
          = Clipvive.Api.enqueue_denied u.storage_used_bytes
              (Clipvive.Api.estimated_size n) (Clipvive.Api.quotas u.plan))
    ∧ (∀ plan : String, plan ≠ "free" → plan ≠ "basic" → plan ≠ "pro" →
        Clipvive.Api.quotas plan = Clipvive.Api.quotas "free")
    ∧ (Clipvive.Api.enqueue_denied 900 150 1000 = true
        ∧ Clipvive.Api.enqueue_denied 900 50 1000 = false
        ∧ Clipvive.getBalance
            (Clipvive._inc_user_storage [(7, 900)] 7 50) 7 = 950
        ∧ Clipvive.Api.enqueue_denied 950 60 1000 = true) := by
  refine ⟨?_, ?_, ?_, by decide, by decide, by decide, by decide⟩
  · intro used est quota
    simp [Clipvive.Api.enqueue_denied]
  · intro u n
    rfl
  · intro plan h1 h2 h3
    simp [Clipvive.Api.quotas, h1, h2, h3]

/-- Concrete instantiation of claim C3's theorem: the admission inequality
at (900, 150, 1000) and the free-tier fallback for the unknown plan
"gold". -/
theorem quota_guard_admission_witness :
    (Clipvive.Api.enqueue_denied 900 150 1000 = true
      ↔ (900 : Int) + ((150 : Nat) : Int) > ((1000 : Nat) : Int))
    ∧ ("gold" ≠ "free" ∧ "gold" ≠ "basic" ∧ "gold" ≠ "pro"
        ∧ Clipvive.Api.quotas "gold" = Clipvive.Api.quotas "free") :=
  ⟨quota_guard_admission.1 900 150 1000,
   by decide, by decide, by decide,
   quota_guard_admission.2.2.1 "gold" (by decide) (by decide) (by decide)⟩

/-- Claim C4, amended: the Payload Store operation `save_job_payload`
(current backend) does satisfy the write-then-atomic-rename contract — a
reader of the final location sees either nothing or the complete payload at
every point of the save — but the worker-variant writer `process_task`,
which the claim also covers, writes directly to the final location, so a
reader there can observe a partially-written file. -/
theorem save_job_payload_never_partial (payload : String) :
    Clipvive.atomic_final_visible
      (Clipvive.Backend.save_job_payload_states payload) payload := by
  unfold Clipvive.atomic_final_visible
  intro s hs
  unfold Clipvive.Backend.save_job_payload_states at hs
  rcases List.mem_append.mp hs with h | h
  · obtain ⟨k, _, hk⟩ := List.mem_map.mp h
    left
    rw [← hk]
  · have hsv : s = ((none : Option String), some payload) :=
      List.mem_singleton.mp h
    right
    rw [hsv]

/-- Concrete instantiation of claim C4's amended theorem at payload
"ab". -/
theorem save_job_payload_never_partial_witness :
    Clipvive.atomic_final_visible
      (Clipvive.Backend.save_job_payload_states "ab") "ab" :=
  save_job_payload_never_partial "ab"

/-- Counterexample to claim C4 as stated: `process_task` (cited by the
claim as a Payload Store writer) opens the final path directly and writes
it in stages, so a reader of the target location can observe a
partially-written payload (for example the truncated empty file or the
header-only stage), falsifying atomic visibility for this writer. -/
theorem process_task_partially_visible :
    ¬ Clipvive.atomic_visible
        (Clipvive.Worker.process_task_states "x" "j" "t")
        (Clipvive.Worker.fullContent "x" "j" "t") := by
  unfold Clipvive.atomic_visible Clipvive.Worker.process_task_states
    Clipvive.Worker.fullContent
  decide

/-- Claim C5, amended: the current backend sweep has no working guard for
non-positive retention thresholds (the `RETENTION_DAYS <= 0` branch is a
bare `pass`).  With threshold exactly 0 only files of age exactly zero
(mtime not before now) survive, because the comparison `mtime < cutoff` is
strict — any file with positive age is deleted; with a negative threshold
even a file written at this very instant is deleted by the sweep. -/
theorem retention_nonpositive_threshold (now R : Int)
    (st : Clipvive.Backend.BackendState)
    (hroot : st.rootReadable = true) :
    (R = 0 → ∀ e ∈ st.dir, e.fault = Clipvive.Backend.Fault.ok →
        now ≤ e.mtime →
        e ∈ (Clipvive.Backend.cleanup_local_storage now R st).2.dir)
    ∧ (R = 0 → ∀ e ∈ st.dir, e.isFile = true →
        e.fault = Clipvive.Backend.Fault.ok → e.mtime < now →
        e ∉ (Clipvive.Backend.cleanup_local_storage now R st).2.dir)
    ∧ (R < 0 → ∀ e ∈ st.dir, e.isFile = true →
        e.fault = Clipvive.Backend.Fault.ok → e.mtime ≤ now →
        e ∉ (Clipvive.Backend.cleanup_local_storage now R st).2.dir) := by
  have hcl : Clipvive.Backend.cleanup_local_storage now R st
      = (⟨some ((st.dir.filter
            (Clipvive.Backend.deletesEntry (now - R * 86400))).length),
          none, none⟩,
         ⟨st.dir.filter (Clipvive.Backend.survives (now - R * 86400)),
          st.jobs.map (Clipvive.Backend.markMissing
            (st.dir.filter (Clipvive.Backend.survives (now - R * 86400)))),
          true⟩) := by
    simp only [Clipvive.Backend.cleanup_local_storage, hroot, if_true]
  refine ⟨?_, ?_, ?_⟩
  · intro hR e he hfault hm
    rw [hcl]
    refine List.mem_filter.mpr ⟨he, ?_⟩
    have hlt : ¬ (e.mtime < now - R * 86400) := by omega
    simp [Clipvive.Backend.survives, Clipvive.Backend.deletesEntry,
      Clipvive.Backend.vanishes, hfault, hlt]
  · intro hR e he hfile hfault hm
    rw [hcl]
    intro hmem
    have hs := (List.mem_filter.mp hmem).2
    have hlt : e.mtime < now - R * 86400 := by omega
    simp [Clipvive.Backend.survives, Clipvive.Backend.deletesEntry,
      Clipvive.Backend.vanishes, hfault, hfile, hlt] at hs
  · intro hR e he hfile hfault hm
    rw [hcl]
    intro hmem
    have hs := (List.mem_filter.mp hmem).2
    have hlt : e.mtime < now - R * 86400 := by
      have : 86400 ≤ -R * 86400 := by omega
      omega
    simp [Clipvive.Backend.survives, Clipvive.Backend.deletesEntry,
      Clipvive.Backend.vanishes, hfault, hfile, hlt] at hs

/-- Concrete instantiation of claim C5's amended theorem: at now = 100
with threshold 0 the just-written file (mtime 100) survives, a file with
mtime 99 is deleted, and with threshold -1 the just-written file is
deleted. -/
theorem retention_nonpositive_threshold_witness :
    ((⟨[⟨"f.txt", true, 100, Clipvive.Backend.Fault.ok⟩], [], true⟩
        : Clipvive.Backend.BackendState).rootReadable = true
      ∧ ((0 : Int) = 0 →
          ∀ e ∈ (⟨[⟨"f.txt", true, 100, Clipvive.Backend.Fault.ok⟩], [],
              true⟩ : Clipvive.Backend.BackendState).dir,
            e.fault = Clipvive.Backend.Fault.ok → (100 : Int) ≤ e.mtime →
            e ∈ (Clipvive.Backend.cleanup_local_storage 100 0
              ⟨[⟨"f.txt", true, 100, Clipvive.Backend.Fault.ok⟩], [],
                true⟩).2.dir)) :=
  ⟨rfl,
   (retention_nonpositive_threshold 100 0
     ⟨[⟨"f.txt", true, 100, Clipvive.Backend.Fault.ok⟩], [], true⟩
     rfl).1⟩

/-- Counterexample to claim C5 as stated: with a NEGATIVE retention
threshold (-1 day) the sweep of the current backend immediately deletes a
file written at this very instant (mtime = now = 100): the result counts
one deletion and the directory is left empty, contradicting the claim
that just-written files are not deleted under a zero-or-negative
threshold. -/
theorem negative_retention_deletes_fresh_file :
    Clipvive.Backend.cleanup_local_storage 100 (-1)
      ⟨[⟨"f.txt", true, 100, Clipvive.Backend.Fault.ok⟩], [], true⟩
      = (⟨some 1, none, none⟩, ⟨[], [], true⟩) := by
  decide

/-- Claim C6: when the storage medium is unwritable, `save_job_payload`
fails with a StorageWriteError (the propagated write exception), the final
location is never promoted (no partial payload there), and when the fault
is at `open` no temp file exists either; the temp file can remain only in
the never-promoted states. -/
theorem save_fails_cleanly_without_promotion (payload job_uuid : String)
    (fault : Clipvive.Backend.WriteFault)
    (h : fault ≠ Clipvive.Backend.WriteFault.noFault) :
    (∃ e, (Clipvive.Backend.save_job_payload payload job_uuid fault).1
        = Except.error e)
    ∧ (Clipvive.Backend.save_job_payload payload job_uuid fault).2.final
        = none
    ∧ (fault = Clipvive.Backend.WriteFault.openFail →
        (Clipvive.Backend.save_job_payload payload job_uuid fault).2.tmp
          = none) := by
  cases fault with
  | noFault => exact absurd rfl h
  | openFail => exact ⟨⟨⟨"open failed"⟩, rfl⟩, rfl, fun _ => rfl⟩
  | writeFail k =>
    exact ⟨⟨⟨"write failed"⟩, rfl⟩, rfl, fun hc => by simp at hc⟩
  | renameFail =>
    exact ⟨⟨⟨"rename failed"⟩, rfl⟩, rfl, fun hc => by simp at hc⟩

/-- Concrete instantiation of claim C6's theorem: a disk-full failure
after 2 bytes of "hello". -/
theorem save_fails_cleanly_without_promotion_witness :
    (Clipvive.Backend.WriteFault.writeFail 2
        ≠ Clipvive.Backend.WriteFault.noFault)
    ∧ ((∃ e, (Clipvive.Backend.save_job_payload "hello" "u"
          (Clipvive.Backend.WriteFault.writeFail 2)).1 = Except.error e)
      ∧ (Clipvive.Backend.save_job_payload "hello" "u"
          (Clipvive.Backend.WriteFault.writeFail 2)).2.final = none
      ∧ (Clipvive.Backend.WriteFault.writeFail 2
            = Clipvive.Backend.WriteFault.openFail →
          (Clipvive.Backend.save_job_payload "hello" "u"
            (Clipvive.Backend.WriteFault.writeFail 2)).2.tmp = none)) :=
  ⟨by decide,
   save_fails_cleanly_without_promotion "hello" "u"
     (Clipvive.Backend.WriteFault.writeFail 2) (by decide)⟩

/-- Claim C8, amended: a sweep invocation never raises — both variants are
total and return a result dictionary for every input — and on success the
returned count is the number of files actually deleted; but the
sweep-level error result does not have the claimed form
"deleted 0 plus error description": the current backend returns only
`deleted 0` with no error key (line 135-137), and the worker variant
returns only an `error` key with no deleted count (line 143-144). -/
theorem sweep_total_result_shapes (now R : Int)
    (bst : Clipvive.Backend.BackendState)
    (wst : Clipvive.Worker.WorkerState) (e : String) (d : Bool)
    (hroot : bst.rootReadable = false) :
    Clipvive.Backend.cleanup_local_storage now R bst
      = (⟨some 0, none, none⟩, bst)
    ∧ Clipvive.Worker.cleanup_result now R d (some e) wst
      = (⟨none, some e, none⟩, wst)
    ∧ Clipvive.Worker.cleanup_result now R true none wst
      = (⟨some (Clipvive.Worker.cleanup_local_storage now R wst).2, none,
          none⟩,
         (Clipvive.Worker.cleanup_local_storage now R wst).1)
    ∧ Clipvive.Worker.cleanup_result now R false none wst
      = (⟨some 0, none, some "no_dir"⟩, wst)
    ∧ (∀ bst2 : Clipvive.Backend.BackendState, bst2.rootReadable = true →
        (Clipvive.Backend.cleanup_local_storage now R bst2).1
          = ⟨some ((bst2.dir.filter
              (Clipvive.Backend.deletesEntry (now - R * 86400))).length),
             none, none⟩) := by
  refine ⟨?_, rfl, rfl, rfl, ?_⟩
  · simp only [Clipvive.Backend.cleanup_local_storage, hroot]
    rfl
  · intro bst2 hroot2
    simp only [Clipvive.Backend.cleanup_local_storage, hroot2, if_true]

/-- Concrete instantiation of claim C8's amended theorem on an
unreadable-root backend state and a worker failure "boom". -/
theorem sweep_total_result_shapes_witness :
    ((⟨[], [], false⟩ : Clipvive.Backend.BackendState).rootReadable = false
      ∧ Clipvive.Backend.cleanup_local_storage 0 7 ⟨[], [], false⟩
          = (⟨some 0, none, none⟩, ⟨[], [], false⟩)
      ∧ Clipvive.Worker.cleanup_result 0 7 true (some "boom") ⟨[], [], []⟩
          = (⟨none, some "boom", none⟩, ⟨[], [], []⟩)) :=
  ⟨rfl,
   (sweep_total_result_shapes 0 7 ⟨[], [], false⟩ ⟨[], [], []⟩ "boom" true
     rfl).1,
   (sweep_total_result_shapes 0 7 ⟨[], [], false⟩ ⟨[], [], []⟩ "boom" true
     rfl).2.1⟩

/-- Counterexample to claim C8 as stated: the claim says internal errors
are reported as a result with deleted 0 AND an error description.  On a
sweep-level failure the current backend's result carries no error
description at all, and the worker variant's error result carries no
deleted count — neither has the claimed shape. -/
theorem sweep_error_result_lacks_claimed_shape :
    (Clipvive.Backend.cleanup_local_storage 0 7
        ⟨[], [], false⟩).1.error = none
    ∧ (Clipvive.Worker.cleanup_result 0 7 true (some "disk error")
        ⟨[], [], []⟩).1.deleted = none := by
  exact ⟨rfl, rfl⟩

/-- Claim C9: candidates are processed independently by the current
backend sweep.  For every sweep over a readable root: the returned count
equals the number of entries whose deletion actually succeeded (regular
files, no fault, strictly older than the cutoff); an entry whose stat or
unlink hits a PermissionError is skipped but remains on disk; every
eligible entry is still deleted even when other entries are faulty; and
non-eligible intact files survive. -/
theorem sweep_candidates_independent (now R : Int)
    (st : Clipvive.Backend.BackendState)
    (hroot : st.rootReadable = true) :
    (Clipvive.Backend.cleanup_local_storage now R st).1.deleted
      = some ((st.dir.filter
          (Clipvive.Backend.deletesEntry (now - R * 86400))).length)
    ∧ (∀ e ∈ st.dir, e.fault = Clipvive.Backend.Fault.denied →
        e ∈ (Clipvive.Backend.cleanup_local_storage now R st).2.dir)
    ∧ (∀ e ∈ st.dir,
        Clipvive.Backend.deletesEntry (now - R * 86400) e = true →
        e ∉ (Clipvive.Backend.cleanup_local_storage now R st).2.dir)
    ∧ (∀ e ∈ st.dir, e.isFile = true →
        e.fault = Clipvive.Backend.Fault.ok →
        ¬ (e.mtime < now - R * 86400) →
        e ∈ (Clipvive.Backend.cleanup_local_storage now R st).2.dir) := by
  have hcl : Clipvive.Backend.cleanup_local_storage now R st
      = (⟨some ((st.dir.filter
            (Clipvive.Backend.deletesEntry (now - R * 86400))).length),
          none, none⟩,
         ⟨st.dir.filter (Clipvive.Backend.survives (now - R * 86400)),
          st.jobs.map (Clipvive.Backend.markMissing
            (st.dir.filter (Clipvive.Backend.survives (now - R * 86400)))),
          true⟩) := by
    simp only [Clipvive.Backend.cleanup_local_storage, hroot, if_true]
  refine ⟨by rw [hcl], ?_, ?_, ?_⟩
  · intro e he hfault
    rw [hcl]
    refine List.mem_filter.mpr ⟨he, ?_⟩
    simp [Clipvive.Backend.survives, Clipvive.Backend.deletesEntry,
      Clipvive.Backend.vanishes, hfault]
  · intro e he hdel
    rw [hcl]
    intro hmem
    have hs := (List.mem_filter.mp hmem).2
    simp [Clipvive.Backend.survives, hdel] at hs
  · intro e he hfile hfault hlt
    rw [hcl]
    refine List.mem_filter.mpr ⟨he, ?_⟩
    simp [Clipvive.Backend.survives, Clipvive.Backend.deletesEntry,
      Clipvive.Backend.vanishes, hfault, hfile, hlt]

/-- Concrete instantiation of claim C9's theorem: a batch with one
permission-blocked old file, one intact old file and one intact fresh
file; exactly the intact old file is counted. -/
theorem sweep_candidates_independent_witness :
    ((⟨[⟨"bad.txt", true, 0, Clipvive.Backend.Fault.denied⟩,
        ⟨"old.txt", true, 0, Clipvive.Backend.Fault.ok⟩,
        ⟨"new.txt", true, 950400, Clipvive.Backend.Fault.ok⟩], [], true⟩
        : Clipvive.Backend.BackendState).rootReadable = true
      ∧ (Clipvive.Backend.cleanup_local_storage 950400 7
          ⟨[⟨"bad.txt", true, 0, Clipvive.Backend.Fault.denied⟩,
            ⟨"old.txt", true, 0, Clipvive.Backend.Fault.ok⟩,
            ⟨"new.txt", true, 950400, Clipvive.Backend.Fault.ok⟩], [],
            true⟩).1.deleted
        = some (((⟨[⟨"bad.txt", true, 0, Clipvive.Backend.Fault.denied⟩,
            ⟨"old.txt", true, 0, Clipvive.Backend.Fault.ok⟩,
            ⟨"new.txt", true, 950400, Clipvive.Backend.Fault.ok⟩], [],
            true⟩ : Clipvive.Backend.BackendState).dir.filter
              (Clipvive.Backend.deletesEntry (950400 - 7 * 86400))).length)) :=
  ⟨rfl,
   (sweep_candidates_independent 950400 7
     ⟨[⟨"bad.txt", true, 0, Clipvive.Backend.Fault.denied⟩,
       ⟨"old.txt", true, 0, Clipvive.Backend.Fault.ok⟩,
       ⟨"new.txt", true, 950400, Clipvive.Backend.Fault.ok⟩], [], true⟩
     rfl).1⟩

namespace Clipvive

theorem Status.rank_le_two (s : Status) : Status.rank s ≤ 2 := by
  cases s <;> simp [Status.rank]

namespace Worker

theorem willDelete_not_done {cutoff : Int} {files : FileStore} {j : Job}
    (h : j.status ≠ Status.done) : willDelete cutoff files j = false := by
  cases hfo : fileOf files j with
  | none => exact willDelete_none hfo
  | some p =>
    obtain ⟨fn, fi⟩ := p
    rw [willDelete_some hfo]
    simp [h]

theorem sweep_preserves_noncandidates (cutoff : Int) :
    ∀ (jobs : List Job) (acc : SweepAcc) (fn : String) (fi : FileInfo),
      lookupName acc.files fn = some fi →
      (∀ j ∈ jobs, j.status = Status.done → j.filename ≠ some fn) →
      lookupName (jobs.foldl (sweepStep cutoff) acc).files fn = some fi := by
  intro jobs
  induction jobs with
  | nil => intro acc fn fi hlk _; exact hlk
  | cons j rest ih =>
    intro acc fn fi hlk hnc
    rw [List.foldl_cons]
    cases hfo : fileOf acc.files j with
    | none =>
      have hstep : sweepStep cutoff acc j
          = ⟨acc.files, acc.ledger, acc.jobs ++ [j], acc.deleted⟩ := by
        unfold sweepStep
        rw [hfo]
      rw [hstep]
      exact ih ⟨acc.files, acc.ledger, acc.jobs ++ [j], acc.deleted⟩ fn fi
        hlk (fun j2 h2 => hnc j2 (List.mem_cons_of_mem _ h2))
    | some p =>
      obtain ⟨fn2, fi2⟩ := p
      by_cases hcond : j.status = Status.done ∧ fi2.mtime < cutoff
      · have hstep : sweepStep cutoff acc j
            = ⟨removeFile acc.files fn2,
               decOwner acc.ledger j.owner_id fi2.size,
               acc.jobs ++ [markJob cutoff acc.files j],
               acc.deleted + 1⟩ := by
          unfold sweepStep
          rw [hfo]
          exact if_pos hcond
        rw [hstep]
        have hfn2 : j.filename = some fn2 := (fileOf_eq_some hfo).1
        have hne : fn ≠ fn2 := by
          intro hc
          exact hnc j (List.mem_cons_self _ _) hcond.1 (hc ▸ hfn2)
        refine ih _ fn fi ?_ (fun j2 h2 => hnc j2 (List.mem_cons_of_mem _ h2))
        show lookupName (removeFile acc.files fn2) fn = some fi
        rw [lookupName_removeFile_other acc.files fn2 fn hne]
        exact hlk
      · have hstep : sweepStep cutoff acc j
            = ⟨acc.files, acc.ledger, acc.jobs ++ [j], acc.deleted⟩ := by
          unfold sweepStep
          rw [hfo]
          exact if_neg hcond
        rw [hstep]
        exact ih ⟨acc.files, acc.ledger, acc.jobs ++ [j], acc.deleted⟩ fn fi
          hlk (fun j2 h2 => hnc j2 (List.mem_cons_of_mem _ h2))

theorem sweep_fold_no_done (cutoff : Int) :
    ∀ (jobs : List Job) (acc : SweepAcc),
      (∀ j ∈ jobs, j.status ≠ Status.done) →
      jobs.foldl (sweepStep cutoff) acc
        = ⟨acc.files, acc.ledger, acc.jobs ++ jobs, acc.deleted⟩ := by
  intro jobs
  induction jobs with
  | nil => intro acc _; simp
  | cons j rest ih =>
    intro acc hnd
    have hj : j.status ≠ Status.done := hnd j (List.mem_cons_self _ _)
    rw [List.foldl_cons]
    have hstep : sweepStep cutoff acc j
        = ⟨acc.files, acc.ledger, acc.jobs ++ [j], acc.deleted⟩ := by
      cases hfo : fileOf acc.files j with
      | none => unfold sweepStep; rw [hfo]
      | some p =>
        obtain ⟨fn, fi⟩ := p
        unfold sweepStep
        rw [hfo]
        exact if_neg (fun hc => hj hc.1)
    rw [hstep, ih ⟨acc.files, acc.ledger, acc.jobs ++ [j], acc.deleted⟩
      (fun j2 h2 => hnd j2 (List.mem_cons_of_mem _ h2))]
    simp

end Worker

end Clipvive

/-- Claim C10: in the worker variant, a job processed with a falsy owner
(`owner_id` absent, or 0 which is falsy in Python) is appended at status
processing with size_bytes 0 and no processed_at — it is never advanced to
done — the ledger is untouched, and since the sweeper only ever deletes
files of status-done jobs, the anonymous job's file survives every
subsequent sweep (for any now and retention), as long as no other job
points at the same filename. -/
theorem anonymous_job_never_reclaimed (textz job_id ts : String)
    (owner : Option Nat) (now now2 R : Int)
    (st : Clipvive.Worker.WorkerState)
    (howner : Clipvive.Worker.truthy owner = false)
    (hfresh : ∀ j ∈ st.jobs, j.filename ≠ some (job_id ++ ".txt")) :
    (Clipvive.Worker.process_task textz job_id owner now ts st).jobs
      = st.jobs ++ [⟨job_id, owner, some (job_id ++ ".txt"), 0,
          Clipvive.Status.processing, now, none⟩]
    ∧ (Clipvive.Worker.process_task textz job_id owner now ts st).ledger
      = st.ledger
    ∧ Clipvive.lookupName
        (Clipvive.Worker.cleanup_local_storage now2 R
          (Clipvive.Worker.process_task textz job_id owner now
            ts st)).1.files
        (job_id ++ ".txt")
      = some ⟨now,
          (Clipvive.Worker.fullContent textz job_id ts).utf8ByteSize⟩ := by
  have hpt : Clipvive.Worker.process_task textz job_id owner now ts st
      = ⟨st.jobs ++ [⟨job_id, owner, some (job_id ++ ".txt"), 0,
            Clipvive.Status.processing, now, none⟩],
         Clipvive.Worker.setFile st.files (job_id ++ ".txt")
           ⟨now,
            (Clipvive.Worker.fullContent textz job_id ts).utf8ByteSize⟩,
         st.ledger⟩ := by
    cases owner with
    | none => rfl
    | some o =>
      have ho : o = 0 := by
        simp [Clipvive.Worker.truthy] at howner
        exact howner
      subst ho
      rfl
  refine ⟨by rw [hpt], by rw [hpt], ?_⟩
  rw [hpt]
  have hlk1 : Clipvive.lookupName
      (Clipvive.Worker.setFile st.files (job_id ++ ".txt")
        ⟨now, (Clipvive.Worker.fullContent textz job_id ts).utf8ByteSize⟩)
      (job_id ++ ".txt")
      = some ⟨now,
          (Clipvive.Worker.fullContent textz job_id ts).utf8ByteSize⟩ := by
    simp [Clipvive.Worker.setFile, Clipvive.lookupName]
  have hnc : ∀ j2 ∈ st.jobs ++ [⟨job_id, owner, some (job_id ++ ".txt"),
        0, Clipvive.Status.processing, now, none⟩],
      j2.status = Clipvive.Status.done →
      j2.filename ≠ some (job_id ++ ".txt") := by
    intro j2 h2 hst2
    rcases List.mem_append.mp h2 with hmem | hmem
    · exact hfresh j2 hmem
    · have hj2 : j2 = ⟨job_id, owner, some (job_id ++ ".txt"), 0,
          Clipvive.Status.processing, now, none⟩ :=
        List.mem_singleton.mp hmem
      rw [hj2] at hst2
      simp at hst2
  exact Clipvive.Worker.sweep_preserves_noncandidates (now2 - R * 86400)
    (st.jobs ++ [⟨job_id, owner, some (job_id ++ ".txt"), 0,
      Clipvive.Status.processing, now, none⟩])
    ⟨Clipvive.Worker.setFile st.files (job_id ++ ".txt")
      ⟨now, (Clipvive.Worker.fullContent textz job_id ts).utf8ByteSize⟩,
     st.ledger, [], 0⟩
    (job_id ++ ".txt")
    ⟨now, (Clipvive.Worker.fullContent textz job_id ts).utf8ByteSize⟩
    hlk1 hnc

/-- Concrete instantiation of claim C10's theorem: text "x", job "j",
anonymous owner, written at t=5, swept at t=950400 with a 7-day
retention over an initially empty state. -/
theorem anonymous_job_never_reclaimed_witness :
    (Clipvive.Worker.truthy none = false
      ∧ (∀ j ∈ ([] : List Clipvive.Job), j.filename ≠ some ("j" ++ ".txt")))
    ∧ ((Clipvive.Worker.process_task "x" "j" none 5 "t" ⟨[], [], []⟩).jobs
        = [] ++ [⟨"j", none, some ("j" ++ ".txt"), 0,
            Clipvive.Status.processing, 5, none⟩]
      ∧ (Clipvive.Worker.process_task "x" "j" none 5 "t"
          ⟨[], [], []⟩).ledger = []
      ∧ Clipvive.lookupName
          (Clipvive.Worker.cleanup_local_storage 950400 7
            (Clipvive.Worker.process_task "x" "j" none 5 "t"
              ⟨[], [], []⟩)).1.files
          ("j" ++ ".txt")
        = some ⟨5, (Clipvive.Worker.fullContent "x" "j" "t").utf8ByteSize⟩) :=
  ⟨⟨rfl, by decide⟩,
   anonymous_job_never_reclaimed "x" "j" "t" none 5 950400 7 ⟨[], [], []⟩
     rfl (by decide)⟩

/-- Claim C7: sweeping never touches deleted jobs and job status only
moves forward.  A worker-variant sweep over a registry with no done jobs
(in particular one where every job is already deleted) is the identity and
deletes nothing; a deleted job is never re-marked by the sweep; every
ledger decrement the sweep issues comes from a status-done job (so never
from an already-deleted one); and each status writer in the code — the
sweep's marking, the current backend's missing-file reflection, and the
delete API — never decreases the status rank along
created/processing (0) to done/failed (1) to deleted (2), strictly
increasing it whenever it changes the status at all. -/
theorem job_status_forward_only :
    (∀ (now R : Int) (st : Clipvive.Worker.WorkerState),
        (∀ j ∈ st.jobs, j.status ≠ Clipvive.Status.done) →
        Clipvive.Worker.cleanup_local_storage now R st = (st, 0))
    ∧ (∀ (cutoff : Int) (files : Clipvive.FileStore) (j : Clipvive.Job),
        j.status = Clipvive.Status.deleted →
        Clipvive.Worker.markJob cutoff files j = j)
    ∧ (∀ (cutoff : Int) (files : Clipvive.FileStore)
          (jobs : List Clipvive.Job) (p : Option Nat × Nat),
        p ∈ Clipvive.Worker.delDecs cutoff files jobs →
        ∃ j ∈ jobs, j.status = Clipvive.Status.done ∧ j.owner_id = p.1)
    ∧ (∀ (cutoff : Int) (files : Clipvive.FileStore) (j : Clipvive.Job),
        Clipvive.Status.rank j.status
          ≤ Clipvive.Status.rank
              (Clipvive.Worker.markJob cutoff files j).status
        ∧ ((Clipvive.Worker.markJob cutoff files j).status ≠ j.status →
            Clipvive.Status.rank j.status
              < Clipvive.Status.rank
                  (Clipvive.Worker.markJob cutoff files j).status))
    ∧ (∀ (dir2 : List Clipvive.Backend.Entry) (j : Clipvive.Job),
        Clipvive.Status.rank j.status
          ≤ Clipvive.Status.rank
              (Clipvive.Backend.markMissing dir2 j).status
        ∧ ((Clipvive.Backend.markMissing dir2 j).status ≠ j.status →
            Clipvive.Status.rank j.status
              < Clipvive.Status.rank
                  (Clipvive.Backend.markMissing dir2 j).status))
    ∧ (∀ j : Clipvive.Job,
        Clipvive.Status.rank j.status
          ≤ Clipvive.Status.rank (Clipvive.Api.delete_file_mark j).status
        ∧ ((Clipvive.Api.delete_file_mark j).status ≠ j.status →
            Clipvive.Status.rank j.status
              < Clipvive.Status.rank
                  (Clipvive.Api.delete_file_mark j).status)) := by
  refine ⟨?_, ?_, ?_, ?_, ?_, ?_⟩
  · intro now R st hnd
    have hfold := Clipvive.Worker.sweep_fold_no_done (now - R * 86400)
      st.jobs ⟨st.files, st.ledger, [], 0⟩ hnd
    simp only [Clipvive.Worker.cleanup_local_storage, hfold]
    rfl
  · intro cutoff files j hdel
    exact Clipvive.Worker.markJob_not_del
      (Clipvive.Worker.willDelete_not_done (by rw [hdel]; decide))
  · intro cutoff files jobs p hp
    unfold Clipvive.Worker.delDecs at hp
    obtain ⟨j, hjf, hfj⟩ := List.mem_filterMap.mp hp
    have hj := List.mem_filter.mp hjf
    have hdone := (Clipvive.Worker.willDelete_true hj.2).1
    refine ⟨j, hj.1, hdone, ?_⟩
    cases hfo : Clipvive.Worker.fileOf files j with
    | none => rw [hfo] at hfj; simp at hfj
    | some q =>
      obtain ⟨fn, fi⟩ := q
      rw [hfo] at hfj
      simp at hfj
      rw [← hfj]
  · intro cutoff files j
    by_cases hw : Clipvive.Worker.willDelete cutoff files j = true
    · have hdone := (Clipvive.Worker.willDelete_true hw).1
      constructor
      · simp [Clipvive.Worker.markJob, hw, hdone, Clipvive.Status.rank]
      · intro _
        simp [Clipvive.Worker.markJob, hw, hdone, Clipvive.Status.rank]
    · have hw2 : Clipvive.Worker.willDelete cutoff files j = false :=
        Bool.eq_false_iff.mpr hw
      rw [Clipvive.Worker.markJob_not_del hw2]
      exact ⟨le_refl _, fun hc => absurd rfl hc⟩
  · intro dir2 j
    cases hf : j.filename with
    | none =>
      have hmm : Clipvive.Backend.markMissing dir2 j = j := by
        simp [Clipvive.Backend.markMissing, hf]
      rw [hmm]
      exact ⟨le_refl _, fun hc => absurd rfl hc⟩
    | some fn =>
      by_cases hany : dir2.any (fun e => e.name == fn) = true
      · have hmm : Clipvive.Backend.markMissing dir2 j = j := by
          simp [Clipvive.Backend.markMissing, hf, hany]
        rw [hmm]
        exact ⟨le_refl _, fun hc => absurd rfl hc⟩
      · have hany2 : dir2.any (fun e => e.name == fn) = false :=
          Bool.eq_false_iff.mpr hany
        have hmm : Clipvive.Backend.markMissing dir2 j
            = ⟨j.job_id, j.owner_id, j.filename, j.size_bytes,
               Clipvive.Status.deleted, j.created_at, j.processed_at⟩ := by
          simp [Clipvive.Backend.markMissing, hf, hany2]
        rw [hmm]
        constructor
        · exact Clipvive.Status.rank_le_two j.status
        · intro hne
          have hjs : j.status ≠ Clipvive.Status.deleted :=
            fun hc => hne (by rw [hc])
          cases hs : j.status with
          | deleted => exact absurd hs hjs
          | created => simp [Clipvive.Status.rank]
          | processing => simp [Clipvive.Status.rank]
          | done => simp [Clipvive.Status.rank]
          | failed => simp [Clipvive.Status.rank]
  · intro j
    constructor
    · exact Clipvive.Status.rank_le_two j.status
    · intro hne
      have hjs : j.status ≠ Clipvive.Status.deleted :=
        fun hc => hne (by rw [hc]; exact rfl)
      cases hs : j.status with
      | deleted => exact absurd hs hjs
      | created => simp [Clipvive.Api.delete_file_mark, Clipvive.Status.rank]
      | processing =>
        simp [Clipvive.Api.delete_file_mark, Clipvive.Status.rank]
      | done => simp [Clipvive.Api.delete_file_mark, Clipvive.Status.rank]
      | failed => simp [Clipvive.Api.delete_file_mark, Clipvive.Status.rank]

/-- Concrete instantiation of claim C7's theorem: a registry holding only
an already-deleted job is left untouched by a sweep, with 0 deletions. -/
theorem job_status_forward_only_witness :
    ((∀ j ∈ (⟨[⟨"d", some 1, some "d.txt", 5, Clipvive.Status.deleted, 0,
          none⟩], [("d.txt", ⟨0, 5⟩)], [(1, 5)]⟩
          : Clipvive.Worker.WorkerState).jobs,
        j.status ≠ Clipvive.Status.done)
      ∧ Clipvive.Worker.cleanup_local_storage 950400 7
          ⟨[⟨"d", some 1, some "d.txt", 5, Clipvive.Status.deleted, 0,
              none⟩], [("d.txt", ⟨0, 5⟩)], [(1, 5)]⟩
        = (⟨[⟨"d", some 1, some "d.txt", 5, Clipvive.Status.deleted, 0,
              none⟩], [("d.txt", ⟨0, 5⟩)], [(1, 5)]⟩, 0)) :=
  ⟨by decide,
   job_status_forward_only.1 950400 7
     ⟨[⟨"d", some 1, some "d.txt", 5, Clipvive.Status.deleted, 0, none⟩],
      [("d.txt", ⟨0, 5⟩)], [(1, 5)]⟩ (by decide)⟩
